import Mathlib

/-!
# Native-contract invocation core (`native/native.go`)

A shallow embedding of `NativeService` and of its methods `Register`, `Invoke`,
`NativeCall`, `PutMerkleVal`, `CheckWitness`, `AddNotify` and the accessors.

* The receiver `*NativeService` is threaded explicitly: every method takes the
  context and returns the context it leaves behind.
* `Handler` and `RegisterService` are Go function values that receive the
  context and may call any exported method of it, `Invoke` and `NativeCall`
  included.  Such a function value is represented by the tree of the exported
  methods it calls (`Prog`); each node carries the continuation that receives
  what the method returned.
* A handler may call back into `Invoke` without bound, so `Invoke` takes the
  number of nested frames it may open; `none` means that this depth was not
  enough (the Go program would still be running).
* Collaborators that live outside `native.go` (the wire format of
  `states.ContractInvokeParam`, the global `Contracts` table, `merkle.HashLeaf`,
  `Transaction.GetSignatureAddresses`) are the fields of `Env`.
-/

namespace Native

/-- Byte slices (`[]byte`); a nil slice and an empty slice are both `[]`. -/
abbrev Bytes := List Nat

/-- The type `common.Address`: a 20-byte array, identified with the number it denotes. -/
abbrev Address := Nat

/-- Error values (`error`).  `external` stands for an error made outside `native.go`
(by the decoder, by the transaction, by a handler); the other three are the
`fmt.Errorf` calls of `Invoke`, each carrying exactly the arguments that the
call formats. -/
inductive Error where
  | external (msg : String)
  | notRegistered (address : Address)
  | notSupported (address : Address) (method : String)
  | executeError (cause : Error)
  deriving DecidableEq, Repr

/-- What `Invoke` returns as `interface{}`: `nil`, a `bool`, or the handler's `[]byte`. -/
inductive Value where
  | nil
  | bool (b : Bool)
  | bytes (b : Bytes)
  deriving DecidableEq, Repr

/-- The record `states.ContractInvokeParam`. -/
structure ContractInvokeParam where
  Address : Address
  Method : String
  Args : Bytes
  deriving DecidableEq, Repr

/-- The record `event.NotifyEventInfo`: emitting contract and event payload. -/
structure NotifyEventInfo where
  ContractAddress : Address
  States : Bytes
  deriving DecidableEq, Repr

/-- The type `types.Transaction`, of which the core only asks for its signers. -/
structure Transaction where
  Raw : Bytes
  deriving DecidableEq, Repr

/-- The store behind `*storage.CacheDB`: key/value pairs. -/
abbrev CacheDB := List (Bytes × Bytes)

/-- A function value of type `Handler` or `RegisterService`, as the tree of the
exported `NativeService` methods it calls.  `ret` is the Go `return result, err`
(`err = none` is a nil error); `updateCacheDB` is a write through the pointer
that `GetCacheDB` hands out. -/
inductive Prog where
  | ret (result : Bytes) (err : Option Error)
  | register (methodName : String) (handler : Prog) (k : Prog)
  | invoke (k : Value → Option Error → Prog)
  | nativeCall (address : Address) (method : String) (args : Bytes)
      (k : Value → Option Error → Prog)
  | putMerkleVal (data : Bytes) (k : Prog)
  | checkWitness (address : Address) (k : Bool → Prog)
  | addNotify (notify : NotifyEventInfo) (k : Prog)
  | getCacheDB (k : CacheDB → Prog)
  | updateCacheDB (f : CacheDB → CacheDB) (k : Prog)
  | getInput (k : Bytes → Prog)
  | getTx (k : Transaction → Prog)
  | getHeight (k : Nat → Prog)
  | getChainID (k : Nat → Prog)
  | getNotify (k : List NotifyEventInfo → Prog)

/-- The Go type `Handler func(native *NativeService) ([]byte, error)`. -/
abbrev Handler := Prog

/-- The Go type `RegisterService func(native *NativeService)`; what its tree returns is dropped. -/
abbrev RegisterService := Prog

/-- The struct `NativeService`. -/
structure NativeService where
  cacheDB : CacheDB
  chainID : Nat
  serviceMap : String → Option Handler
  notifications : List NotifyEventInfo
  input : Bytes
  tx : Transaction
  height : Nat
  time : Nat
  blockHash : Bytes
  crossHashes : Bytes
  preExec : Bool

/-- What `native.go` imports from the rest of the repository. -/
structure Env where
  /-- Decoder `(*ContractInvokeParam).Deserialization` applied to a whole buffer. -/
  Deserialization : Bytes → Except Error ContractInvokeParam
  /-- Encoder `(*ContractInvokeParam).Serialization` into a fresh sink. -/
  Serialization : ContractInvokeParam → Bytes
  /-- The package-level table `Contracts`. -/
  Contracts : Address → Option RegisterService
  /-- The function `merkle.HashLeaf`, as the bytes that `WriteHash` writes. -/
  HashLeaf : Bytes → Bytes
  /-- The method `(*Transaction).GetSignatureAddresses`. -/
  GetSignatureAddresses : Transaction → Except Error (List Address)

/-- What `Invoke` and `NativeCall` hand back: the two Go results and the context. -/
abbrev InvokeResult := Value × Option Error × NativeService

/-- What a handler hands back: the two Go results and the context. -/
abbrev HandlerResult := Bytes × Option Error × NativeService

/-- Constructor `NewNativeService` (lines 56-71). -/
def NewNativeService (cacheDB : CacheDB) (tx : Transaction) (time height : Nat)
    (blockHash : Bytes) (chainID : Nat) (input : Bytes) (preExec : Bool)
    (crossHashes : Bytes) : NativeService :=
  { cacheDB := cacheDB
    tx := tx
    time := time
    height := height
    blockHash := blockHash
    serviceMap := fun _ => none
    notifications := []
    input := input
    chainID := chainID
    preExec := preExec
    crossHashes := crossHashes }

/-- Method `Register` (lines 73-75): `this.serviceMap[methodName] = handler`. -/
def Register (this : NativeService) (methodName : String) (handler : Handler) : NativeService :=
  { this with serviceMap := fun m => if m = methodName then some handler else this.serviceMap m }

/-- Method `PutMerkleVal` (lines 122-124). -/
def PutMerkleVal (env : Env) (this : NativeService) (data : Bytes) : NativeService :=
  { this with crossHashes := this.crossHashes ++ env.HashLeaf data }

/-- Method `CheckWitness` (lines 127-139). -/
def CheckWitness (env : Env) (this : NativeService) (address : Address) : Bool :=
  match env.GetSignatureAddresses this.tx with
  | .error _ => false
  | .ok addresses => addresses.any (fun v => decide (v = address))

/-- Method `AddNotify` (lines 141-143). -/
def AddNotify (this : NativeService) (notify : NotifyEventInfo) : NativeService :=
  { this with notifications := this.notifications ++ [notify] }

/-- Accessor `GetCacheDB`. -/
def GetCacheDB (this : NativeService) : CacheDB := this.cacheDB

/-- Accessor `GetInput`. -/
def GetInput (this : NativeService) : Bytes := this.input

/-- Accessor `GetTx`. -/
def GetTx (this : NativeService) : Transaction := this.tx

/-- Accessor `GetHeight`. -/
def GetHeight (this : NativeService) : Nat := this.height

/-- Accessor `GetChainID`. -/
def GetChainID (this : NativeService) : Nat := this.chainID

/-- Accessor `GetNotify`. -/
def GetNotify (this : NativeService) : List NotifyEventInfo := this.notifications

/-- Lines 111-118 of `NativeCall`: build the parameter, encode it, overwrite `this.input`. -/
def nativeCallInput (env : Env) (this : NativeService) (address : Address) (method : String)
    (args : Bytes) : NativeService :=
  { this with input := env.Serialization { Address := address, Method := method, Args := args } }

/-- Running a function value on the context.  `inv` is what a call of `this.Invoke()`
made by the function does. -/
def exec (env : Env) (inv : NativeService → Option InvokeResult) :
    Prog → NativeService → Option HandlerResult
  | .ret result err, this => some (result, err, this)
  | .register methodName handler k, this => exec env inv k (Register this methodName handler)
  | .invoke k, this =>
    match inv this with
    | none => none
    | some (v, e, this1) => exec env inv (k v e) this1
  | .nativeCall address method args k, this =>
    match inv (nativeCallInput env this address method args) with
    | none => none
    | some (v, e, this1) => exec env inv (k v e) this1
  | .putMerkleVal data k, this => exec env inv k (PutMerkleVal env this data)
  | .checkWitness address k, this => exec env inv (k (CheckWitness env this address)) this
  | .addNotify notify k, this => exec env inv k (AddNotify this notify)
  | .getCacheDB k, this => exec env inv (k (GetCacheDB this)) this
  | .updateCacheDB f k, this => exec env inv k { this with cacheDB := f this.cacheDB }
  | .getInput k, this => exec env inv (k (GetInput this)) this
  | .getTx k, this => exec env inv (k (GetTx this)) this
  | .getHeight k, this => exec env inv (k (GetHeight this)) this
  | .getChainID k, this => exec env inv (k (GetChainID this)) this
  | .getNotify k, this => exec env inv (k (GetNotify this)) this

/-- Lines 92-97 of `Invoke`: the context in which the handler starts. -/
def calleeFrame (this : NativeService) (invokParam : ContractInvokeParam) : NativeService :=
  { this with input := invokParam.Args, notifications := [] }

/-- Lines 104-105 of `Invoke`: `saved` is the context at line 92, `this` the one the
handler left. -/
def mergeFrame (saved this : NativeService) : NativeService :=
  { this with notifications := saved.notifications ++ this.notifications, input := saved.input }

/-- Method `Invoke` (lines 77-108).  The first argument bounds the depth of nested frames. -/
def Invoke (env : Env) : Nat → NativeService → Option InvokeResult
  | 0, _ => none
  | fuel + 1, this =>
    match env.Deserialization this.input with
    | .error err => some (Value.nil, some err, this)
    | .ok invokParam =>
      match env.Contracts invokParam.Address with
      | none => some (Value.bool false, some (Error.notRegistered invokParam.Address), this)
      | some services =>
        match exec env (Invoke env fuel) services this with
        | none => none
        | some (_, _, this1) =>
          match this1.serviceMap invokParam.Method with
          | none =>
            some (Value.bool false,
              some (Error.notSupported invokParam.Address invokParam.Method), this1)
          | some service =>
            match exec env (Invoke env fuel) service (calleeFrame this1 invokParam) with
            | none => none
            | some (result, some err, this2) =>
              some (Value.bytes result, some (Error.executeError err), this2)
            | some (result, none, this2) =>
              some (Value.bytes result, none, mergeFrame this1 this2)

/-- Method `NativeCall` (lines 110-120). -/
def NativeCall (env : Env) (fuel : Nat) (this : NativeService) (address : Address)
    (method : String) (args : Bytes) : Option InvokeResult :=
  Invoke env fuel (nativeCallInput env this address method args)

/-- A handler as run by `Invoke` at depth `fuel + 1`. -/
def run (env : Env) (fuel : Nat) (p : Prog) (this : NativeService) : Option HandlerResult :=
  exec env (Invoke env fuel) p this

/-! ## Families of function values used to state the properties -/

/-- A registration function that only calls `Register`, once per listed pair, in order. -/
def registerAll : List (String × Handler) → RegisterService
  | [] => .ret [] none
  | (m, h) :: l => .register m h (registerAll l)

/-- The method table after the calls of `Register` made by `registerAll l`. -/
def registerTable : List (String × Handler) → (String → Option Handler) → String → Option Handler
  | [], t => t
  | (m, h) :: l, t => registerTable l (fun x => if x = m then some h else t x)

/-- A function value that calls `AddNotify` on each listed event, in order, then goes on as `k`. -/
def emit : List NotifyEventInfo → Prog → Prog
  | [], k => k
  | n :: l, k => .addNotify n (emit l k)

/-! ## A concrete environment

The scenario of the specification (contract `0xA1` whose `transfer` calls `mint` of
contract `0xA2`), extended with a failing handler, a handler that recovers from a
failed nested call, and a contract that registers a single method. -/

/-- A wire format: address, length of the method name, its characters, then the arguments. -/
def demoDecode : Bytes → Except Error ContractInvokeParam
  | address :: n :: rest =>
    if n ≤ rest.length then
      .ok { Address := address
            Method := String.mk ((rest.take n).map Char.ofNat)
            Args := rest.drop n }
    else .error (.external "unexpected EOF")
  | _ => .error (.external "unexpected EOF")

/-- The encoder of the wire format of `demoDecode`. -/
def demoEncode (p : ContractInvokeParam) : Bytes :=
  p.Address :: p.Method.length :: (p.Method.data.map Char.toNat ++ p.Args)

/-- Event emitted by `mint` of contract `0xA2`. -/
def E1 : NotifyEventInfo := { ContractAddress := 162, States := [1] }

/-- Event emitted by `transfer` of contract `0xA1` after its nested call. -/
def E2 : NotifyEventInfo := { ContractAddress := 161, States := [2] }

/-- Event emitted by `burn` of contract `0xA2` before it fails. -/
def E3 : NotifyEventInfo := { ContractAddress := 162, States := [3] }

/-- Event emitted by `swap` of contract `0xA3` before its nested call. -/
def N1 : NotifyEventInfo := { ContractAddress := 163, States := [4] }

/-- Event emitted by `swap` of contract `0xA3` after its nested call. -/
def N2 : NotifyEventInfo := { ContractAddress := 163, States := [5] }

/-- An event already in the ledger of the caller. -/
def P0 : NotifyEventInfo := { ContractAddress := 160, States := [0] }

/-- Handler `mint` of `0xA2`: emits `E1`, succeeds. -/
def mintHandler : Handler := .addNotify E1 (.ret [2] none)

/-- Handler `burn` of `0xA2`: emits `E3`, then returns an error. -/
def burnHandler : Handler :=
  .addNotify E3 (.ret [] (some (.external "insufficient balance")))

/-- Handler `transfer` of `0xA1`: calls `mint` of `0xA2`, then emits `E2`; it passes an
error of the nested call on. -/
def transferHandler : Handler :=
  .nativeCall 162 "mint" [7] (fun _ e =>
    match e with
    | none => .addNotify E2 (.ret [1] none)
    | some err => .ret [] (some err))

/-- Handler `swap` of `0xA3`: emits `N1`, calls `burn` of `0xA2`, ignores its error,
emits `N2`, succeeds. -/
def swapHandler : Handler :=
  .addNotify N1 (.nativeCall 162 "burn" [8] (fun _ _ => .addNotify N2 (.ret [3] none)))

/-- Handler `close` of `0xA4`. -/
def closeHandler : Handler := .ret [4] none

/-- Handler `lock` of `0xA6`: fails with the same error as `burn` of `0xA2`. -/
def lockHandler : Handler := .ret [] (some (.external "insufficient balance"))

/-- Handler `relay` of `0xA7`: records the commitment `[1]`, calls `audit` of `0xA7`,
which records `[2]` and fails, then records `[3]` and succeeds. -/
def relayHandler : Handler :=
  .putMerkleVal [1] (.nativeCall 167 "audit" [] (fun _ _ => .putMerkleVal [3] (.ret [] none)))

/-- Handler `echo` of `0xA8`: returns the length of the ledger it sees, followed by
the input it sees. -/
def echoHandler : Handler :=
  .getInput (fun i => .getNotify (fun l => .ret (l.length :: i) none))

/-- Handler `audit` of `0xA7`: records the commitment `[2]`, then fails. -/
def auditHandler : Handler := .putMerkleVal [2] (.ret [] (some (.external "rejected")))

/-- The table `Contracts` of the concrete environment. -/
def demoContracts : Address → Option RegisterService
  | 161 => some (registerAll [("transfer", transferHandler)])
  | 162 => some (registerAll [("mint", mintHandler), ("burn", burnHandler)])
  | 163 => some (registerAll [("swap", swapHandler)])
  | 164 => some (registerAll [("close", closeHandler)])
  | 166 => some (registerAll [("lock", lockHandler)])
  | 167 => some (registerAll [("relay", relayHandler), ("audit", auditHandler)])
  | 168 => some (registerAll [("echo", echoHandler)])
  | _ => none

/-- The concrete environment. -/
def demoEnv : Env :=
  { Deserialization := demoDecode
    Serialization := demoEncode
    Contracts := demoContracts
    HashLeaf := fun data => 0 :: data
    GetSignatureAddresses := fun tx =>
      if tx.Raw = [] then .error (.external "no signature") else .ok tx.Raw }

/-- A fresh context, as `NewNativeService` builds it, with the given input. -/
def demoCtx (input : Bytes) : NativeService :=
  NewNativeService [] { Raw := [5] } 0 0 [] 0 input false []

/-- What the properties below observe of a returned call: value, error, ledger, input. -/
def observe (r : Option InvokeResult) :
    Option (Value × Option Error × List NotifyEventInfo × Bytes) :=
  r.map (fun x => (x.1, x.2.1, x.2.2.notifications, x.2.2.input))

/-! ## Notions used to state the properties of the whole core -/

/-- The handler that the registration function `registerAll l` leaves under the name
`m`: the last one that it registers under `m`, if it registers any. -/
def lastRegistered : List (String × Handler) → String → Option Handler
  | [], _ => none
  | (m1, h1) :: l, m =>
    match lastRegistered l m with
    | some h => some h
    | none => if m = m1 then some h1 else none

/-- The fields that `NewNativeService` receives and that no method of `native.go`
assigns: `tx`, `height`, `time`, `blockHash`, `chainID`, `preExec`. -/
def snapshot (this : NativeService) : Transaction × Nat × Nat × Bytes × Nat × Bool :=
  (this.tx, this.height, this.time, this.blockHash, this.chainID, this.preExec)

/-- A function value that calls neither `Invoke` nor `NativeCall`. -/
inductive CallFree : Prog → Prop where
  | ret (result : Bytes) (err : Option Error) : CallFree (.ret result err)
  | register (methodName : String) (handler k : Prog) :
      CallFree k → CallFree (.register methodName handler k)
  | putMerkleVal (data : Bytes) (k : Prog) : CallFree k → CallFree (.putMerkleVal data k)
  | checkWitness (address : Address) (k : Bool → Prog) :
      (∀ b, CallFree (k b)) → CallFree (.checkWitness address k)
  | addNotify (notify : NotifyEventInfo) (k : Prog) : CallFree k → CallFree (.addNotify notify k)
  | getCacheDB (k : CacheDB → Prog) : (∀ c, CallFree (k c)) → CallFree (.getCacheDB k)
  | updateCacheDB (f : CacheDB → CacheDB) (k : Prog) :
      CallFree k → CallFree (.updateCacheDB f k)
  | getInput (k : Bytes → Prog) : (∀ i, CallFree (k i)) → CallFree (.getInput k)
  | getTx (k : Transaction → Prog) : (∀ t, CallFree (k t)) → CallFree (.getTx k)
  | getHeight (k : Nat → Prog) : (∀ n, CallFree (k n)) → CallFree (.getHeight k)
  | getChainID (k : Nat → Prog) : (∀ n, CallFree (k n)) → CallFree (.getChainID k)
  | getNotify (k : List NotifyEventInfo → Prog) :
      (∀ l, CallFree (k l)) → CallFree (.getNotify k)

/-- A relation between an earlier and a later context that is reflexive, transitive,
and kept by every assignment that a method of `native.go` makes to the context. -/
structure Stable (env : Env) (R : NativeService → NativeService → Prop) : Prop where
  refl : ∀ s, R s s
  trans : ∀ s1 s2 s3, R s1 s2 → R s2 s3 → R s1 s3
  register : ∀ s m h, R s (Register s m h)
  putMerkleVal : ∀ s data, R s (PutMerkleVal env s data)
  addNotify : ∀ s n, R s (AddNotify s n)
  cacheDB : ∀ s c, R s { s with cacheDB := c }
  input : ∀ s i, R s { s with input := i }
  notifications : ∀ s l, R s { s with notifications := l }

/-- The data passed to `PutMerkleVal` while a function value runs, in the order of the
calls.  It follows `exec` node by node; `invC` gives the data recorded by a call of
`this.Invoke()` made by the function. -/
def execCommits (env : Env) (inv : NativeService → Option InvokeResult)
    (invC : NativeService → List Bytes) : Prog → NativeService → List Bytes
  | .ret _ _, _ => []
  | .register methodName handler k, this =>
    execCommits env inv invC k (Register this methodName handler)
  | .invoke k, this =>
    match inv this with
    | none => invC this
    | some (v, e, this1) => invC this ++ execCommits env inv invC (k v e) this1
  | .nativeCall address method args k, this =>
    match inv (nativeCallInput env this address method args) with
    | none => invC (nativeCallInput env this address method args)
    | some (v, e, this1) =>
      invC (nativeCallInput env this address method args)
        ++ execCommits env inv invC (k v e) this1
  | .putMerkleVal data k, this =>
    data :: execCommits env inv invC k (PutMerkleVal env this data)
  | .checkWitness address k, this =>
    execCommits env inv invC (k (CheckWitness env this address)) this
  | .addNotify notify k, this => execCommits env inv invC k (AddNotify this notify)
  | .getCacheDB k, this => execCommits env inv invC (k (GetCacheDB this)) this
  | .updateCacheDB f k, this =>
    execCommits env inv invC k { this with cacheDB := f this.cacheDB }
  | .getInput k, this => execCommits env inv invC (k (GetInput this)) this
  | .getTx k, this => execCommits env inv invC (k (GetTx this)) this
  | .getHeight k, this => execCommits env inv invC (k (GetHeight this)) this
  | .getChainID k, this => execCommits env inv invC (k (GetChainID this)) this
  | .getNotify k, this => execCommits env inv invC (k (GetNotify this)) this

/-- The data passed to `PutMerkleVal` during a call of `Invoke`, in the order of the
calls: by the registration function, then by the handler, nested calls included. -/
def InvokeCommits (env : Env) : Nat → NativeService → List Bytes
  | 0, _ => []
  | fuel + 1, this =>
    match env.Deserialization this.input with
    | .error _ => []
    | .ok invokParam =>
      match env.Contracts invokParam.Address with
      | none => []
      | some services =>
        execCommits env (Invoke env fuel) (InvokeCommits env fuel) services this ++
          match exec env (Invoke env fuel) services this with
          | none => []
          | some (_, _, this1) =>
            match this1.serviceMap invokParam.Method with
            | none => []
            | some service =>
              execCommits env (Invoke env fuel) (InvokeCommits env fuel) service
                (calleeFrame this1 invokParam)

/-! ## Lemmas on the families -/

theorem exec_registerAll (env : Env) (inv : NativeService → Option InvokeResult)
    (l : List (String × Handler)) (s : NativeService) :
    exec env inv (registerAll l) s
      = some ([], none, { s with serviceMap := registerTable l s.serviceMap }) := by
  induction l generalizing s with
  | nil => rfl
  | cons a l ih =>
    obtain ⟨m, h⟩ := a
    simp only [registerAll, exec, ih, Register, registerTable]

theorem registerTable_of_not_mem (l : List (String × Handler)) (t : String → Option Handler)
    (m : String) (hm : m ∉ l.map Prod.fst) : registerTable l t m = t m := by
  induction l generalizing t with
  | nil => rfl
  | cons a l ih =>
    obtain ⟨m1, h1⟩ := a
    simp only [List.map_cons, List.mem_cons, not_or] at hm
    simp only [registerTable]
    rw [ih _ hm.2]
    simp [hm.1]

theorem exec_emit (env : Env) (inv : NativeService → Option InvokeResult)
    (l : List NotifyEventInfo) (k : Prog) (s : NativeService) :
    exec env inv (emit l k) s
      = exec env inv k { s with notifications := s.notifications ++ l } := by
  induction l generalizing s with
  | nil => simp [emit]
  | cons n l ih => simp [emit, exec, ih, AddNotify]

/-! ## Frame isolation -/

/-- C1 (the code at the failing input): contract `0xA2` is registered and its handler
`burn` returns an error.  `Invoke` returns the wrapped error, and the input it leaves
is the decoded arguments `[4]`, not the input the context held before the call. -/
theorem invoke_handler_failure_leaves_callee_input :
    (demoCtx (demoEncode { Address := 162, Method := "burn", Args := [4] })).input
        = [162, 4, 98, 117, 114, 110, 4]
      ∧ observe (Invoke demoEnv 1
          (demoCtx (demoEncode { Address := 162, Method := "burn", Args := [4] })))
        = some (Value.bytes [],
            some (Error.executeError (Error.external "insufficient balance")), [E3], [4]) := by
  constructor <;> rfl

/-- C2 (the code at the failing input): the caller holds `[P0]`; the handler `burn`
emits `E3` and fails.  After `Invoke` the ledger is `[E3]`: `P0` is gone.  In the
scenario of the claim (`swap` emits `N1`, its nested call fails, it recovers and emits
`N2`) the ledger that `Invoke` returns is `[P0, E3, N2]`: `N1` is gone. -/
theorem invoke_handler_failure_drops_caller_notifications :
    observe (Invoke demoEnv 1
        { demoCtx (demoEncode { Address := 162, Method := "burn", Args := [4] }) with
          notifications := [P0] })
        = some (Value.bytes [],
            some (Error.executeError (Error.external "insufficient balance")), [E3], [4])
      ∧ observe (Invoke demoEnv 2
        { demoCtx (demoEncode { Address := 163, Method := "swap", Args := [] }) with
          notifications := [P0] })
        = some (Value.bytes [3], none, [P0, E3, N2], [163, 4, 115, 119, 97, 112]) := by
  constructor <;> rfl

/-- C3: when the input decodes to a registered contract whose registration function
returns without touching ledger and input, the method resolves to a handler, and that
handler succeeds leaving the frame ledger `s2.notifications`, `Invoke` succeeds with
the handler's context in which the ledger is the caller's followed by the frame's and
the input is the caller's. -/
theorem invoke_success_merges (env : Env) (fuel : Nat) (s s1 s2 : NativeService)
    (p : ContractInvokeParam) (services : RegisterService) (r0 : Bytes) (e0 : Option Error)
    (service : Handler) (result : Bytes)
    (hdec : env.Deserialization s.input = .ok p)
    (hreg : env.Contracts p.Address = some services)
    (hrun : run env fuel services s = some (r0, e0, s1))
    (hN : s1.notifications = s.notifications) (hI : s1.input = s.input)
    (hm : s1.serviceMap p.Method = some service)
    (hh : run env fuel service (calleeFrame s1 p) = some (result, none, s2)) :
    Invoke env (fuel + 1) s
      = some (Value.bytes result, none,
          { s2 with notifications := s.notifications ++ s2.notifications, input := s.input }) := by
  unfold run at hrun hh
  simp only [Invoke, hdec, hreg, hrun, hm, hh, mergeFrame, hN, hI]

/-- C3 at a concrete input: `mint` of `0xA2` called with `[P0]` in the ledger. -/
theorem invoke_success_merges_witness :
    observe (Invoke demoEnv 1
        { demoCtx (demoEncode { Address := 162, Method := "mint", Args := [7] }) with
          notifications := [P0] })
      = some (Value.bytes [2], none, [P0, E1], [162, 4, 109, 105, 110, 116, 7]) := by
  rw [invoke_success_merges demoEnv 0
    { demoCtx (demoEncode { Address := 162, Method := "mint", Args := [7] }) with
      notifications := [P0] }
    _ _ { Address := 162, Method := "mint", Args := [7] }
    (registerAll [("mint", mintHandler), ("burn", burnHandler)]) [] none mintHandler [2]
    rfl rfl (exec_registerAll _ _ _ _) rfl rfl rfl rfl]
  rfl

/-! ## Nested calls -/

/-- C4: handler `A` emits `l1`, calls `NativeCall` into handler `B`, which succeeds
leaving the frame ledger `M`, then emits `l2` and succeeds.  A top-level `Invoke` of
`A` on a context with an empty ledger succeeds with the ledger `l1 ++ M ++ l2` and
with the input the context held before the call. -/
theorem nested_notifications_ordered (env : Env) (fuel : Nat) (s sB : NativeService)
    (pA : ContractInvokeParam) (lA lB : List (String × Handler))
    (l1 M l2 : List NotifyEventInfo) (b : Address) (mB : String) (argsB : Bytes)
    (k : Value → Option Error → Prog) (hB : Handler) (rA rB : Bytes)
    (hs : s.notifications = [])
    (hdecA : env.Deserialization s.input = .ok pA)
    (hregA : env.Contracts pA.Address = some (registerAll lA))
    (hA : registerTable lA s.serviceMap pA.Method = some (emit l1 (.nativeCall b mB argsB k)))
    (hround : env.Deserialization
        (env.Serialization { Address := b, Method := mB, Args := argsB })
      = .ok { Address := b, Method := mB, Args := argsB })
    (hregB : env.Contracts b = some (registerAll lB))
    (hlB : registerTable lB (registerTable lA s.serviceMap) mB = some hB)
    (hrunB : run env fuel hB
        { s with serviceMap := registerTable lB (registerTable lA s.serviceMap)
                 input := argsB
                 notifications := [] }
      = some (rB, none, sB))
    (hM : sB.notifications = M)
    (hk : k (Value.bytes rB) none = emit l2 (.ret rA none)) :
    Invoke env (fuel + 2) s
      = some (Value.bytes rA, none,
          { sB with notifications := l1 ++ M ++ l2, input := s.input }) := by
  unfold run at hrunB
  simp only [Invoke, hdecA, hregA, exec_registerAll, hA, calleeFrame, exec_emit, exec,
    nativeCallInput, hround, hregB, hlB, hrunB, mergeFrame, hk, hs, hM, List.nil_append,
    List.append_assoc]

/-- C4 at the scenario of the specification: `transfer` of `0xA1` calls `mint` of
`0xA2`, which emits `E1`; `transfer` then emits `E2`.  The ledger is `[E1, E2]` and the
input is the top-level input. -/
theorem nested_notifications_ordered_witness :
    observe (Invoke demoEnv 2
        (demoCtx (demoEncode { Address := 161, Method := "transfer", Args := [9, 9] })))
      = some (Value.bytes [1], none, [E1, E2],
          [161, 8, 116, 114, 97, 110, 115, 102, 101, 114, 9, 9]) := by
  rw [nested_notifications_ordered demoEnv 0
    (demoCtx (demoEncode { Address := 161, Method := "transfer", Args := [9, 9] })) _
    { Address := 161, Method := "transfer", Args := [9, 9] }
    [("transfer", transferHandler)] [("mint", mintHandler), ("burn", burnHandler)]
    [] [E1] [E2] 162 "mint" [7] _ mintHandler [1] [2]
    rfl rfl rfl rfl rfl rfl rfl rfl rfl rfl]
  rfl

/-- Whatever `Invoke` returns other than a handler failure, it returns with the input
it was called with, when registration functions only call `Register`. -/
theorem Invoke_input_of_no_handler_failure (env : Env) (fuel : Nat) (s s1 : NativeService)
    (v : Value) (e : Option Error)
    (hreg : ∀ a services, env.Contracts a = some services → ∃ l, services = registerAll l)
    (hret : Invoke env fuel s = some (v, e, s1))
    (hok : ∀ cause, e ≠ some (Error.executeError cause)) :
    s1.input = s.input := by
  cases fuel with
  | zero => simp [Invoke] at hret
  | succ fuel =>
    simp only [Invoke] at hret
    cases hdec : env.Deserialization s.input with
    | error err =>
      simp only [hdec, Option.some.injEq, Prod.mk.injEq] at hret
      rw [← hret.2.2]
    | ok p =>
      simp only [hdec] at hret
      cases hc : env.Contracts p.Address with
      | none =>
        simp only [hc, Option.some.injEq, Prod.mk.injEq] at hret
        rw [← hret.2.2]
      | some services =>
        obtain ⟨l, hl⟩ := hreg _ _ hc
        subst hl
        simp only [hc, exec_registerAll] at hret
        cases hm : registerTable l s.serviceMap p.Method with
        | none =>
          simp only [hm, Option.some.injEq, Prod.mk.injEq] at hret
          rw [← hret.2.2]
        | some service =>
          simp only [hm] at hret
          cases hh : exec env (Invoke env fuel) service
              (calleeFrame { s with serviceMap := registerTable l s.serviceMap } p) with
          | none => simp [hh] at hret
          | some r =>
            obtain ⟨result, err, s2⟩ := r
            cases err with
            | some err =>
              simp only [hh, Option.some.injEq, Prod.mk.injEq] at hret
              exact absurd hret.2.1.symm (hok err)
            | none =>
              simp only [hh, Option.some.injEq, Prod.mk.injEq, mergeFrame] at hret
              rw [← hret.2.2]

/-- C5 (as stated, refuted): from a context whose input is `[9]`, `NativeCall` into
`mint` of `0xA2` succeeds and leaves as input the encoded invocation parameter, not `[9]`. -/
theorem nativeCall_leaves_encoded_input :
    (demoCtx [9]).input = [9]
      ∧ observe (NativeCall demoEnv 1 (demoCtx [9]) 162 "mint" [7])
        = some (Value.bytes [2], none, [E1], [162, 4, 109, 105, 110, 116, 7])
      ∧ demoEncode { Address := 162, Method := "mint", Args := [7] }
        = [162, 4, 109, 105, 110, 116, 7] := by
  refine ⟨rfl, rfl, rfl⟩

/-- C5 (amended): when registration functions only call `Register` and `NativeCall`
returns with success or with any error other than a handler failure, the input of the
context is the encoded invocation parameter. -/
theorem nativeCall_input_is_encoded_parameter (env : Env) (fuel : Nat) (s s1 : NativeService)
    (address : Address) (method : String) (args : Bytes) (v : Value) (e : Option Error)
    (hreg : ∀ a services, env.Contracts a = some services → ∃ l, services = registerAll l)
    (hret : NativeCall env fuel s address method args = some (v, e, s1))
    (hok : ∀ cause, e ≠ some (Error.executeError cause)) :
    s1.input = env.Serialization { Address := address, Method := method, Args := args } := by
  unfold NativeCall at hret
  rw [Invoke_input_of_no_handler_failure env fuel _ s1 v e hreg hret hok]
  rfl

/-- Every registration function of the concrete environment only calls `Register`. -/
theorem demoContracts_registerAll (a : Address) (services : RegisterService)
    (h : demoEnv.Contracts a = some services) : ∃ l, services = registerAll l := by
  simp only [demoEnv] at h
  unfold demoContracts at h
  split at h
  all_goals first
    | exact ⟨_, (Option.some.inj h).symm⟩
    | exact absurd h (by simp)

/-- C5 (amended) at a concrete input: the successful call of `mint` from input `[9]`. -/
theorem nativeCall_input_is_encoded_parameter_witness :
    ∃ s1, NativeCall demoEnv 1 (demoCtx [9]) 162 "mint" [7] = some (Value.bytes [2], none, s1)
      ∧ s1.input = demoEncode { Address := 162, Method := "mint", Args := [7] } :=
  ⟨_, rfl, nativeCall_input_is_encoded_parameter demoEnv 1 (demoCtx [9]) _ 162 "mint" [7]
    (Value.bytes [2]) none demoContracts_registerAll rfl (by simp)⟩

/-! ## The method table across dispatches -/

/-- C6 (as stated, refuted): contract `0xA4` registers only `close`.  On a fresh
context, `mint` of `0xA4` is not supported.  On a context that dispatched into `0xA2`
before (which registered `mint`), the same call succeeds: it runs the `mint` handler of
`0xA2`, which returns `[2]` and emits `E1` a second time. -/
theorem stale_method_is_executed :
    observe (NativeCall demoEnv 1 (demoCtx []) 164 "mint" [9])
        = some (Value.bool false, some (Error.notSupported 164 "mint"), [],
            [164, 4, 109, 105, 110, 116, 9])
      ∧ observe ((NativeCall demoEnv 1 (demoCtx []) 162 "mint" [7]).bind
          (fun r => NativeCall demoEnv 1 r.2.2 164 "mint" [9]))
        = some (Value.bytes [2], none, [E1, E1], [164, 4, 109, 105, 110, 116, 9]) := by
  constructor <;> rfl

/-- C6 (amended): when the method table already maps `m` to a handler `hA` left by an
earlier dispatch, and the input decodes to a registered contract whose registration
function only calls `Register` and does not register `m`, `Invoke` opens the frame and
runs `hA`: it returns what `hA` returns (wrapped on failure, merged on success), not a
method-not-supported error. -/
theorem invoke_runs_stale_handler (env : Env) (fuel : Nat) (s : NativeService)
    (p : ContractInvokeParam) (l : List (String × Handler)) (hA : Handler)
    (hdec : env.Deserialization s.input = .ok p)
    (hreg : env.Contracts p.Address = some (registerAll l))
    (hnot : p.Method ∉ l.map Prod.fst)
    (hstale : s.serviceMap p.Method = some hA) :
    Invoke env (fuel + 1) s
      = match run env fuel hA
            (calleeFrame { s with serviceMap := registerTable l s.serviceMap } p) with
        | none => none
        | some (result, some err, s2) =>
          some (Value.bytes result, some (Error.executeError err), s2)
        | some (result, none, s2) =>
          some (Value.bytes result, none,
            mergeFrame { s with serviceMap := registerTable l s.serviceMap } s2) := by
  have hm : registerTable l s.serviceMap p.Method = some hA := by
    rw [registerTable_of_not_mem l s.serviceMap p.Method hnot, hstale]
  simp only [Invoke, hdec, hreg, exec_registerAll, hm, run]

/-- C6 (amended) at a concrete input: the context left by a dispatch into `0xA2`, then
`mint` of `0xA4`. -/
theorem invoke_runs_stale_handler_witness :
    observe (Invoke demoEnv 1
        { demoCtx (demoEncode { Address := 164, Method := "mint", Args := [9] }) with
          serviceMap := registerTable [("mint", mintHandler), ("burn", burnHandler)]
            (fun _ => none) })
      = some (Value.bytes [2], none, [E1], [164, 4, 109, 105, 110, 116, 9]) := by
  rw [invoke_runs_stale_handler demoEnv 0
    { demoCtx (demoEncode { Address := 164, Method := "mint", Args := [9] }) with
      serviceMap := registerTable [("mint", mintHandler), ("burn", burnHandler)]
        (fun _ => none) }
    { Address := 164, Method := "mint", Args := [9] } [("close", closeHandler)] mintHandler
    rfl rfl (by decide) rfl]
  rfl

/-! ## Failures before the frame is opened -/

/-- C7: when the input decodes to an address that is absent from `Contracts`, `Invoke`
returns `false` with the not-registered error for that address and the context is
the one it was called with (ledger, input, method table and all other fields). -/
theorem invoke_unknown_address (env : Env) (fuel : Nat) (s : NativeService)
    (p : ContractInvokeParam)
    (hdec : env.Deserialization s.input = .ok p)
    (hreg : env.Contracts p.Address = none) :
    Invoke env (fuel + 1) s
      = some (Value.bool false, some (Error.notRegistered p.Address), s) := by
  simp only [Invoke, hdec, hreg]

/-- C7 at a concrete input: address `0xA5` is in no table; the ledger `[P0]` stays. -/
theorem invoke_unknown_address_witness :
    observe (Invoke demoEnv 1
        { demoCtx (demoEncode { Address := 165, Method := "mint", Args := [] }) with
          notifications := [P0] })
      = some (Value.bool false, some (Error.notRegistered 165), [P0],
          [165, 4, 109, 105, 110, 116]) := by
  rw [invoke_unknown_address demoEnv 0
    { demoCtx (demoEncode { Address := 165, Method := "mint", Args := [] }) with
      notifications := [P0] }
    { Address := 165, Method := "mint", Args := [] } rfl rfl]
  rfl

/-- C8: when the input decodes to a registered address, the registration function
returns leaving the context `s1`, and the method is absent from the table of `s1`,
`Invoke` returns `false` with the method-not-supported error and the context `s1`;
when the registration function only calls `Register`, `s1` is the caller's context
with the registered methods added to its table. -/
theorem invoke_unknown_method (env : Env) (fuel : Nat) (s s1 : NativeService)
    (p : ContractInvokeParam) (services : RegisterService) (r0 : Bytes) (e0 : Option Error)
    (hdec : env.Deserialization s.input = .ok p)
    (hreg : env.Contracts p.Address = some services)
    (hrun : run env fuel services s = some (r0, e0, s1))
    (hm : s1.serviceMap p.Method = none) :
    Invoke env (fuel + 1) s
        = some (Value.bool false, some (Error.notSupported p.Address p.Method), s1)
      ∧ (∀ l, services = registerAll l →
          s1 = { s with serviceMap := registerTable l s.serviceMap }) := by
  unfold run at hrun
  constructor
  · simp only [Invoke, hdec, hreg, hrun, hm]
  · intro l hl
    subst hl
    rw [exec_registerAll] at hrun
    simp only [Option.some.injEq, Prod.mk.injEq] at hrun
    exact hrun.2.2.symm

/-- C8 at a concrete input: `0xA2` does not register `close`; ledger and input stay. -/
theorem invoke_unknown_method_witness :
    observe (Invoke demoEnv 1
        { demoCtx (demoEncode { Address := 162, Method := "close", Args := [] }) with
          notifications := [P0] })
      = some (Value.bool false, some (Error.notSupported 162 "close"), [P0],
          [162, 5, 99, 108, 111, 115, 101]) := by
  rw [(invoke_unknown_method demoEnv 0
    { demoCtx (demoEncode { Address := 162, Method := "close", Args := [] }) with
      notifications := [P0] } _
    { Address := 162, Method := "close", Args := [] }
    (registerAll [("mint", mintHandler), ("burn", burnHandler)]) [] none
    rfl rfl (exec_registerAll _ _ _ _) rfl).1]
  rfl

/-- C9: when the input does not decode, `Invoke` returns `nil` with the error of the
decoder, and the context is the one it was called with. -/
theorem invoke_malformed_input (env : Env) (fuel : Nat) (s : NativeService) (err : Error)
    (hdec : env.Deserialization s.input = .error err) :
    Invoke env (fuel + 1) s = some (Value.nil, some err, s) := by
  simp only [Invoke, hdec]

/-- C9 at a concrete input: a one-byte buffer is not an invocation parameter. -/
theorem invoke_malformed_input_witness :
    observe (Invoke demoEnv 1 { demoCtx [162] with notifications := [P0] })
      = some (Value.nil, some (Error.external "unexpected EOF"), [P0], [162]) := by
  rw [invoke_malformed_input demoEnv 0 { demoCtx [162] with notifications := [P0] }
    (Error.external "unexpected EOF") rfl]
  rfl

/-! ## Success -/

/-- C10: `Invoke` returns without error exactly when the input decodes, the decoded
address is in `Contracts`, the registration function returns, the decoded method is in
the table it leaves, and the resolved handler returns without error; the value is
then the handler's. -/
theorem invoke_success_iff (env : Env) (fuel : Nat) (s s3 : NativeService) (v : Value) :
    Invoke env (fuel + 1) s = some (v, none, s3)
      ↔ ∃ p services r0 e0 s1 service result s2,
          env.Deserialization s.input = .ok p
          ∧ env.Contracts p.Address = some services
          ∧ run env fuel services s = some (r0, e0, s1)
          ∧ s1.serviceMap p.Method = some service
          ∧ run env fuel service (calleeFrame s1 p) = some (result, none, s2)
          ∧ v = Value.bytes result
          ∧ s3 = mergeFrame s1 s2 := by
  constructor
  · intro hret
    simp only [Invoke] at hret
    cases hdec : env.Deserialization s.input with
    | error err => simp [hdec] at hret
    | ok p =>
      simp only [hdec] at hret
      cases hc : env.Contracts p.Address with
      | none => simp [hc] at hret
      | some services =>
        simp only [hc] at hret
        cases hr : exec env (Invoke env fuel) services s with
        | none => simp [hr] at hret
        | some r1 =>
          obtain ⟨r0, e0, s1⟩ := r1
          simp only [hr] at hret
          cases hm : s1.serviceMap p.Method with
          | none => simp [hm] at hret
          | some service =>
            simp only [hm] at hret
            cases hh : exec env (Invoke env fuel) service (calleeFrame s1 p) with
            | none => simp [hh] at hret
            | some r2 =>
              obtain ⟨result, err, s2⟩ := r2
              cases err with
              | some err => simp [hh] at hret
              | none =>
                simp only [hh, Option.some.injEq, Prod.mk.injEq, true_and] at hret
                exact ⟨p, services, r0, e0, s1, service, result, s2, rfl, hc, hr, hm, hh,
                  hret.1.symm, hret.2.symm⟩
  · rintro ⟨p, services, r0, e0, s1, service, result, s2, hdec, hc, hr, hm, hh, hv, hs⟩
    unfold run at hr hh
    simp only [Invoke, hdec, hc, hr, hm, hh, hv, hs]

/-! ## The resolved handler -/

/-- Once the input has decoded, the registration function has returned and the method
has resolved, `Invoke` is the run of the resolved handler in the callee frame,
followed by lines 100-107. -/
theorem Invoke_resolved (env : Env) (fuel : Nat) (s s1 : NativeService)
    (p : ContractInvokeParam) (services : RegisterService) (r0 : Bytes) (e0 : Option Error)
    (service : Handler)
    (hdec : env.Deserialization s.input = .ok p)
    (hreg : env.Contracts p.Address = some services)
    (hrun : run env fuel services s = some (r0, e0, s1))
    (hm : s1.serviceMap p.Method = some service) :
    Invoke env (fuel + 1) s
      = match run env fuel service (calleeFrame s1 p) with
        | none => none
        | some (result, some err, s2) =>
          some (Value.bytes result, some (Error.executeError err), s2)
        | some (result, none, s2) => some (Value.bytes result, none, mergeFrame s1 s2) := by
  unfold run at hrun
  simp only [Invoke, hdec, hreg, hrun, hm, run]

/-- C11 (the code at the failing input): `burn` of `0xA2` and `lock` of `0xA6` fail with
the same handler error.  `Invoke` returns the very same error for both calls: line 101
formats the handler's error only, so the error holds neither the address nor the
method of the failing call, which lines 84 and 89-90 do put into their errors. -/
theorem execute_error_is_the_same_for_different_calls :
    (Invoke demoEnv 1 (demoCtx (demoEncode { Address := 162, Method := "burn", Args := [4] }))).map
        (fun r => r.2.1)
        = some (some (Error.executeError (Error.external "insufficient balance")))
      ∧ (Invoke demoEnv 1
          (demoCtx (demoEncode { Address := 166, Method := "lock", Args := [] }))).map
        (fun r => r.2.1)
        = some (some (Error.executeError (Error.external "insufficient balance"))) := by
  constructor <;> rfl

/-! ## Authorization -/

/-- C12: `CheckWitness` answers `true` exactly when the signers are obtained and the
address is one of them; it answers `false` when the signers are not obtained; and the
function value that called it goes on in the very same context. -/
theorem checkWitness_membership (env : Env) (s : NativeService) (address : Address) :
    (CheckWitness env s address = true
        ↔ ∃ l, env.GetSignatureAddresses s.tx = .ok l ∧ address ∈ l)
      ∧ ((∃ err, env.GetSignatureAddresses s.tx = .error err) →
          CheckWitness env s address = false)
      ∧ ∀ inv k, exec env inv (.checkWitness address k) s
          = exec env inv (k (CheckWitness env s address)) s := by
  refine ⟨?_, ?_, fun _ _ => rfl⟩
  · unfold CheckWitness
    cases h : env.GetSignatureAddresses s.tx with
    | error err => simp
    | ok l =>
      simp only [List.any_eq_true, decide_eq_true_eq, Except.ok.injEq, exists_eq_left']
      constructor
      · rintro ⟨v, hv, rfl⟩
        exact hv
      · intro hmem
        exact ⟨address, hmem, rfl⟩
  · rintro ⟨err, herr⟩
    simp only [CheckWitness, herr]

/-- C12 at concrete inputs: the transaction of `demoCtx` is signed by address `5` only;
a transaction without signature data yields no signers. -/
theorem checkWitness_membership_witness :
    CheckWitness demoEnv (demoCtx []) 5 = true
      ∧ CheckWitness demoEnv (demoCtx []) 6 = false
      ∧ CheckWitness demoEnv { demoCtx [] with tx := { Raw := [] } } 5 = false :=
  ⟨(checkWitness_membership demoEnv (demoCtx []) 5).1.mpr ⟨[5], rfl, by decide⟩, rfl,
    (checkWitness_membership demoEnv { demoCtx [] with tx := { Raw := [] } } 5).2.1
      ⟨Error.external "no signature", rfl⟩⟩

/-! ## Cross-chain commitments -/

/-- A function value leaves the sink it found, followed by the leaf hashes of the data
it recorded, when the calls of `Invoke` it makes do so. -/
theorem exec_crossHashes (env : Env) (inv : NativeService → Option InvokeResult)
    (invC : NativeService → List Bytes)
    (hinv : ∀ s v e s1, inv s = some (v, e, s1) →
      s1.crossHashes = s.crossHashes ++ (invC s).flatMap env.HashLeaf)
    (prog : Prog) :
    ∀ s r e s1, exec env inv prog s = some (r, e, s1) →
      s1.crossHashes
        = s.crossHashes ++ (execCommits env inv invC prog s).flatMap env.HashLeaf := by
  induction prog with
  | ret result err =>
    intro s r e s1 h
    simp only [exec, Option.some.injEq, Prod.mk.injEq] at h
    rw [← h.2.2]
    simp [execCommits]
  | register m g k _ ih =>
    intro s r e s1 h
    simp only [exec] at h
    simpa [execCommits, Register] using ih _ _ _ _ h
  | invoke k ih =>
    intro s r e s1 h
    simp only [exec] at h
    cases hi : inv s with
    | none => simp [hi] at h
    | some x =>
      obtain ⟨v, e1, s2⟩ := x
      simp only [hi] at h
      rw [ih v e1 _ _ _ _ h, hinv _ _ _ _ hi]
      simp [execCommits, hi, List.flatMap_append]
  | nativeCall a m args k ih =>
    intro s r e s1 h
    simp only [exec] at h
    cases hi : inv (nativeCallInput env s a m args) with
    | none => simp [hi] at h
    | some x =>
      obtain ⟨v, e1, s2⟩ := x
      simp only [hi] at h
      rw [ih v e1 _ _ _ _ h, hinv _ _ _ _ hi]
      simp only [execCommits, hi, List.flatMap_append, List.append_assoc]
      rfl
  | putMerkleVal data k ih =>
    intro s r e s1 h
    simp only [exec] at h
    rw [ih _ _ _ _ h]
    simp [execCommits, PutMerkleVal, List.flatMap_cons]
  | checkWitness a k ih =>
    intro s r e s1 h
    simp only [exec] at h
    simpa [execCommits] using ih _ _ _ _ _ h
  | addNotify n k ih =>
    intro s r e s1 h
    simp only [exec] at h
    simpa [execCommits, AddNotify] using ih _ _ _ _ h
  | getCacheDB k ih =>
    intro s r e s1 h
    simp only [exec] at h
    simpa [execCommits] using ih _ _ _ _ _ h
  | updateCacheDB f k ih =>
    intro s r e s1 h
    simp only [exec] at h
    simpa [execCommits] using ih _ _ _ _ h
  | getInput k ih =>
    intro s r e s1 h
    simp only [exec] at h
    simpa [execCommits] using ih _ _ _ _ _ h
  | getTx k ih =>
    intro s r e s1 h
    simp only [exec] at h
    simpa [execCommits] using ih _ _ _ _ _ h
  | getHeight k ih =>
    intro s r e s1 h
    simp only [exec] at h
    simpa [execCommits] using ih _ _ _ _ _ h
  | getChainID k ih =>
    intro s r e s1 h
    simp only [exec] at h
    simpa [execCommits] using ih _ _ _ _ _ h
  | getNotify k ih =>
    intro s r e s1 h
    simp only [exec] at h
    simpa [execCommits] using ih _ _ _ _ _ h

/-- Whatever `Invoke` returns, the sink it leaves is the sink it found followed by the
leaf hashes of the data recorded during the call, in the order recorded. -/
theorem Invoke_crossHashes (env : Env) (fuel : Nat) :
    ∀ s v e s1, Invoke env fuel s = some (v, e, s1) →
      s1.crossHashes = s.crossHashes ++ (InvokeCommits env fuel s).flatMap env.HashLeaf := by
  induction fuel with
  | zero =>
    intro s v e s1 h
    simp [Invoke] at h
  | succ fuel ih =>
    intro s v e s1 h
    simp only [Invoke] at h
    simp only [InvokeCommits]
    cases hdec : env.Deserialization s.input with
    | error err =>
      simp only [hdec, Option.some.injEq, Prod.mk.injEq] at h
      rw [← h.2.2]
      simp
    | ok p =>
      simp only [hdec] at h
      cases hc : env.Contracts p.Address with
      | none =>
        simp only [hc, Option.some.injEq, Prod.mk.injEq] at h
        rw [← h.2.2]
        simp [hc]
      | some services =>
        simp only [hc] at h
        cases hr : exec env (Invoke env fuel) services s with
        | none => simp [hr] at h
        | some x =>
          obtain ⟨r0, e0, t1⟩ := x
          simp only [hr] at h
          have h1 := exec_crossHashes env (Invoke env fuel) (InvokeCommits env fuel) ih
            services _ _ _ _ hr
          cases hm : t1.serviceMap p.Method with
          | none =>
            simp only [hm, Option.some.injEq, Prod.mk.injEq] at h
            rw [← h.2.2, h1]
            simp [hc, hr, hm]
          | some service =>
            simp only [hm] at h
            cases hh : exec env (Invoke env fuel) service (calleeFrame t1 p) with
            | none => simp [hh] at h
            | some y =>
              obtain ⟨result, err, t2⟩ := y
              have h2 := exec_crossHashes env (Invoke env fuel) (InvokeCommits env fuel) ih
                service _ _ _ _ hh
              have h3 : (calleeFrame t1 p).crossHashes = t1.crossHashes := rfl
              rw [h3, h1] at h2
              cases err with
              | some err =>
                simp only [hh, Option.some.injEq, Prod.mk.injEq] at h
                rw [← h.2.2, h2]
                simp [hc, hr, hm, List.flatMap_append]
              | none =>
                simp only [hh, Option.some.injEq, Prod.mk.injEq] at h
                rw [← h.2.2]
                show t2.crossHashes = _
                rw [h2]
                simp [hc, hr, hm, List.flatMap_append]

/-- C13: `PutMerkleVal` appends the leaf hash of its argument to the sink and assigns
nothing else; and whatever a call of `Invoke` returns (success, or the failure of its
handler or of a nested handler), the sink afterwards is the sink before the call
followed by the leaf hashes of the data recorded during the call, in the order
recorded. -/
theorem commitments_are_never_rolled_back (env : Env) (fuel : Nat) (s s1 : NativeService)
    (v : Value) (e : Option Error)
    (hret : Invoke env fuel s = some (v, e, s1)) :
    (∀ t data, PutMerkleVal env t data
        = { t with crossHashes := t.crossHashes ++ env.HashLeaf data })
      ∧ s1.crossHashes
        = s.crossHashes ++ (InvokeCommits env fuel s).flatMap env.HashLeaf :=
  ⟨fun _ _ => rfl, Invoke_crossHashes env fuel s v e s1 hret⟩

/-- C13 at a concrete input: `relay` of `0xA7` records `[1]`, calls `audit`, which
records `[2]` and fails, then records `[3]`.  The sink `[9]` becomes `[9]` followed by
the three leaf hashes: the commitment of the failed frame stays. -/
theorem commitments_are_never_rolled_back_witness :
    ∃ s1, Invoke demoEnv 2
          { demoCtx (demoEncode { Address := 167, Method := "relay", Args := [] }) with
            crossHashes := [9] }
        = some (Value.bytes [], none, s1)
      ∧ s1.crossHashes = [9] ++ [[1], [2], [3]].flatMap demoEnv.HashLeaf
      ∧ s1.crossHashes = [9, 0, 1, 0, 2, 0, 3] :=
  ⟨_, rfl,
    (commitments_are_never_rolled_back demoEnv 2
      { demoCtx (demoEncode { Address := 167, Method := "relay", Args := [] }) with
        crossHashes := [9] } _ (Value.bytes []) none rfl).2, rfl⟩

/-! ## `NativeCall` through `Invoke` -/

/-- C14: at every depth `NativeCall` returns what `Invoke` returns on the context
whose input is replaced by the encoding of `(address, method, args)`; and when that
encoding decodes to the same triple, the address is registered and the registration
function leaves a handler under `method`, the call is the run of that handler in a
frame whose input is exactly `args`. -/
theorem nativeCall_composes_with_invoke (env : Env) (fuel : Nat) (s s1 : NativeService)
    (address : Address) (method : String) (args : Bytes) (services : RegisterService)
    (r0 : Bytes) (e0 : Option Error) (service : Handler)
    (hround : env.Deserialization
        (env.Serialization { Address := address, Method := method, Args := args })
      = .ok { Address := address, Method := method, Args := args })
    (hreg : env.Contracts address = some services)
    (hrun : run env fuel services
        { s with
          input := env.Serialization { Address := address, Method := method, Args := args } }
      = some (r0, e0, s1))
    (hm : s1.serviceMap method = some service) :
    (∀ n, NativeCall env n s address method args
        = Invoke env n
            { s with
              input := env.Serialization { Address := address, Method := method, Args := args } })
      ∧ NativeCall env (fuel + 1) s address method args
        = (match run env fuel service { s1 with input := args, notifications := [] } with
          | none => none
          | some (result, some err, s2) =>
            some (Value.bytes result, some (Error.executeError err), s2)
          | some (result, none, s2) => some (Value.bytes result, none, mergeFrame s1 s2))
      ∧ GetInput { s1 with input := args, notifications := [] } = args := by
  refine ⟨fun _ => rfl, ?_, rfl⟩
  unfold NativeCall nativeCallInput
  rw [Invoke_resolved env fuel _ s1 { Address := address, Method := method, Args := args }
    services r0 e0 service hround hreg hrun hm]
  rfl

/-- C14 at a concrete input: `NativeCall` into `mint` of `0xA2` from a context whose input
is `[9]` runs `mintHandler` with input `[7]`. -/
theorem nativeCall_composes_with_invoke_witness :
    observe (NativeCall demoEnv 1 (demoCtx [9]) 162 "mint" [7])
        = observe (Invoke demoEnv 1
            (demoCtx (demoEncode { Address := 162, Method := "mint", Args := [7] })))
      ∧ observe (NativeCall demoEnv 1 (demoCtx [9]) 162 "mint" [7])
        = some (Value.bytes [2], none, [E1], [162, 4, 109, 105, 110, 116, 7]) := by
  have h := nativeCall_composes_with_invoke demoEnv 0 (demoCtx [9]) _ 162 "mint" [7]
    (registerAll [("mint", mintHandler), ("burn", burnHandler)]) [] none mintHandler
    rfl rfl (exec_registerAll _ _ _ _) rfl
  constructor
  · rw [h.1 1]
    rfl
  · rw [h.2.1]
    rfl

/-! ## What every step of the core keeps -/

/-- A function value keeps a stable relation when the calls of `Invoke` it makes do. -/
theorem exec_stable (env : Env) (R : NativeService → NativeService → Prop)
    (hR : Stable env R) (inv : NativeService → Option InvokeResult)
    (hinv : ∀ s v e s1, inv s = some (v, e, s1) → R s s1) (prog : Prog) :
    ∀ s r e s1, exec env inv prog s = some (r, e, s1) → R s s1 := by
  induction prog with
  | ret result err =>
    intro s r e s1 h
    simp only [exec, Option.some.injEq, Prod.mk.injEq] at h
    rw [← h.2.2]
    exact hR.refl s
  | register m g k _ ih =>
    intro s r e s1 h
    simp only [exec] at h
    exact hR.trans _ _ _ (hR.register s m g) (ih _ _ _ _ h)
  | invoke k ih =>
    intro s r e s1 h
    simp only [exec] at h
    cases hi : inv s with
    | none => simp [hi] at h
    | some x =>
      obtain ⟨v, e1, s2⟩ := x
      simp only [hi] at h
      exact hR.trans _ _ _ (hinv _ _ _ _ hi) (ih v e1 _ _ _ _ h)
  | nativeCall a m args k ih =>
    intro s r e s1 h
    simp only [exec] at h
    cases hi : inv (nativeCallInput env s a m args) with
    | none => simp [hi] at h
    | some x =>
      obtain ⟨v, e1, s2⟩ := x
      simp only [hi] at h
      exact hR.trans _ _ _ (hR.input s _)
        (hR.trans _ _ _ (hinv _ _ _ _ hi) (ih v e1 _ _ _ _ h))
  | putMerkleVal data k ih =>
    intro s r e s1 h
    simp only [exec] at h
    exact hR.trans _ _ _ (hR.putMerkleVal s data) (ih _ _ _ _ h)
  | checkWitness a k ih =>
    intro s r e s1 h
    simp only [exec] at h
    exact ih _ _ _ _ _ h
  | addNotify n k ih =>
    intro s r e s1 h
    simp only [exec] at h
    exact hR.trans _ _ _ (hR.addNotify s n) (ih _ _ _ _ h)
  | getCacheDB k ih =>
    intro s r e s1 h
    simp only [exec] at h
    exact ih _ _ _ _ _ h
  | updateCacheDB f k ih =>
    intro s r e s1 h
    simp only [exec] at h
    exact hR.trans _ _ _ (hR.cacheDB s (f s.cacheDB)) (ih _ _ _ _ h)
  | getInput k ih =>
    intro s r e s1 h
    simp only [exec] at h
    exact ih _ _ _ _ _ h
  | getTx k ih =>
    intro s r e s1 h
    simp only [exec] at h
    exact ih _ _ _ _ _ h
  | getHeight k ih =>
    intro s r e s1 h
    simp only [exec] at h
    exact ih _ _ _ _ _ h
  | getChainID k ih =>
    intro s r e s1 h
    simp only [exec] at h
    exact ih _ _ _ _ _ h
  | getNotify k ih =>
    intro s r e s1 h
    simp only [exec] at h
    exact ih _ _ _ _ _ h

/-- The callee frame is reached by two assignments, so a stable relation holds of it. -/
theorem calleeFrame_stable (env : Env) (R : NativeService → NativeService → Prop)
    (hR : Stable env R) (s : NativeService) (p : ContractInvokeParam) :
    R s (calleeFrame s p) :=
  hR.trans _ _ _ (hR.input s p.Args) (hR.notifications { s with input := p.Args } [])

/-- The merge is reached by two assignments, so a stable relation holds of it. -/
theorem mergeFrame_stable (env : Env) (R : NativeService → NativeService → Prop)
    (hR : Stable env R) (saved s : NativeService) :
    R s (mergeFrame saved s) :=
  hR.trans _ _ _ (hR.notifications s (saved.notifications ++ s.notifications))
    (hR.input { s with notifications := saved.notifications ++ s.notifications } saved.input)

/-- Whatever `Invoke` returns, a stable relation holds between the context it was
called with and the context it leaves. -/
theorem Invoke_stable (env : Env) (R : NativeService → NativeService → Prop)
    (hR : Stable env R) (fuel : Nat) :
    ∀ s v e s1, Invoke env fuel s = some (v, e, s1) → R s s1 := by
  induction fuel with
  | zero =>
    intro s v e s1 h
    simp [Invoke] at h
  | succ fuel ih =>
    intro s v e s1 h
    simp only [Invoke] at h
    cases hdec : env.Deserialization s.input with
    | error err =>
      simp only [hdec, Option.some.injEq, Prod.mk.injEq] at h
      rw [← h.2.2]
      exact hR.refl s
    | ok p =>
      simp only [hdec] at h
      cases hc : env.Contracts p.Address with
      | none =>
        simp only [hc, Option.some.injEq, Prod.mk.injEq] at h
        rw [← h.2.2]
        exact hR.refl s
      | some services =>
        simp only [hc] at h
        cases hr : exec env (Invoke env fuel) services s with
        | none => simp [hr] at h
        | some x =>
          obtain ⟨r0, e0, t1⟩ := x
          simp only [hr] at h
          have h1 : R s t1 := exec_stable env R hR (Invoke env fuel) ih services _ _ _ _ hr
          cases hm : t1.serviceMap p.Method with
          | none =>
            simp only [hm, Option.some.injEq, Prod.mk.injEq] at h
            rw [← h.2.2]
            exact h1
          | some service =>
            simp only [hm] at h
            cases hh : exec env (Invoke env fuel) service (calleeFrame t1 p) with
            | none => simp [hh] at h
            | some y =>
              obtain ⟨result, err, t2⟩ := y
              have h2 : R (calleeFrame t1 p) t2 :=
                exec_stable env R hR (Invoke env fuel) ih service _ _ _ _ hh
              have h3 : R s t2 :=
                hR.trans _ _ _ h1 (hR.trans _ _ _ (calleeFrame_stable env R hR t1 p) h2)
              cases err with
              | some err =>
                simp only [hh, Option.some.injEq, Prod.mk.injEq] at h
                rw [← h.2.2]
                exact h3
              | none =>
                simp only [hh, Option.some.injEq, Prod.mk.injEq] at h
                rw [← h.2.2]
                exact hR.trans _ _ _ h3 (mergeFrame_stable env R hR t1 t2)

/-- Keeping the snapshot fields is a stable relation. -/
theorem snapshot_stable (env : Env) : Stable env (fun s s1 => snapshot s1 = snapshot s) where
  refl := fun _ => rfl
  trans := fun _ _ _ h12 h23 => h23.trans h12
  register := fun _ _ _ => rfl
  putMerkleVal := fun _ _ => rfl
  addNotify := fun _ _ => rfl
  cacheDB := fun _ _ => rfl
  input := fun _ _ => rfl
  notifications := fun _ _ => rfl

/-- Keeping every name of the method table is a stable relation. -/
theorem methods_stable (env : Env) :
    Stable env (fun s s1 => ∀ m, (s.serviceMap m).isSome = true →
      (s1.serviceMap m).isSome = true) where
  refl := fun _ _ h => h
  trans := fun _ _ _ h12 h23 m h => h23 m (h12 m h)
  register := by
    intro s m g m1 h
    simp only [Register]
    split
    · rfl
    · exact h
  putMerkleVal := fun _ _ _ h => h
  addNotify := fun _ _ _ h => h
  cacheDB := fun _ _ _ h => h
  input := fun _ _ _ h => h
  notifications := fun _ _ _ h => h

/-- C15: the context that `NewNativeService` builds holds the values it was given;
`GetTx`, `GetHeight` and `GetChainID` return the fields; `Register`, `PutMerkleVal`,
`AddNotify`, `Invoke` and `NativeCall` (whatever they return, and whatever the
function values they run do through the methods of the context) leave `tx`, `height`,
`time`, `blockHash`, `chainID` and `preExec` as they were; so after a call of `Invoke`
on a new context the accessors still return the values given to `NewNativeService`. -/
theorem snapshot_is_immutable (env : Env) (cacheDB : CacheDB) (tx : Transaction)
    (time height : Nat) (blockHash : Bytes) (chainID : Nat) (input : Bytes) (preExec : Bool)
    (crossHashes : Bytes) :
    snapshot (NewNativeService cacheDB tx time height blockHash chainID input preExec
        crossHashes) = (tx, height, time, blockHash, chainID, preExec)
      ∧ (∀ s, GetTx s = s.tx ∧ GetHeight s = s.height ∧ GetChainID s = s.chainID)
      ∧ (∀ s m h, snapshot (Register s m h) = snapshot s)
      ∧ (∀ s data, snapshot (PutMerkleVal env s data) = snapshot s)
      ∧ (∀ s n, snapshot (AddNotify s n) = snapshot s)
      ∧ (∀ fuel s v e s1, Invoke env fuel s = some (v, e, s1) → snapshot s1 = snapshot s)
      ∧ (∀ fuel s a m args v e s1, NativeCall env fuel s a m args = some (v, e, s1) →
          snapshot s1 = snapshot s)
      ∧ (∀ fuel v e s1,
          Invoke env fuel (NewNativeService cacheDB tx time height blockHash chainID input
            preExec crossHashes) = some (v, e, s1) →
          GetTx s1 = tx ∧ GetHeight s1 = height ∧ GetChainID s1 = chainID
            ∧ s1.time = time ∧ s1.blockHash = blockHash ∧ s1.preExec = preExec) := by
  refine ⟨rfl, fun _ => ⟨rfl, rfl, rfl⟩, fun _ _ _ => rfl, fun _ _ => rfl, fun _ _ => rfl,
    fun fuel => Invoke_stable env _ (snapshot_stable env) fuel, ?_, ?_⟩
  · intro fuel s a m args v e s1 h
    exact Invoke_stable env _ (snapshot_stable env) fuel (nativeCallInput env s a m args)
      v e s1 h
  · intro fuel v e s1 h
    have hs := Invoke_stable env _ (snapshot_stable env) fuel _ v e s1 h
    simp only [snapshot, NewNativeService, Prod.mk.injEq] at hs
    exact ⟨hs.1, hs.2.1, hs.2.2.2.2.1, hs.2.2.1, hs.2.2.2.1, hs.2.2.2.2.2⟩

/-- C15 at a concrete input: after the nested call of the scenario of the
specification, the accessors return the values given to `NewNativeService`. -/
theorem snapshot_is_immutable_witness :
    ∃ s1, Invoke demoEnv 2
          (NewNativeService [] { Raw := [5] } 11 22 [33] 44
            (demoEncode { Address := 161, Method := "transfer", Args := [9, 9] }) true [])
        = some (Value.bytes [1], none, s1)
      ∧ GetTx s1 = { Raw := [5] } ∧ GetHeight s1 = 22 ∧ GetChainID s1 = 44
      ∧ s1.time = 11 ∧ s1.blockHash = [33] ∧ s1.preExec = true :=
  ⟨_, rfl,
    (snapshot_is_immutable demoEnv [] { Raw := [5] } 11 22 [33] 44
      (demoEncode { Address := 161, Method := "transfer", Args := [9, 9] }) true
      []).2.2.2.2.2.2.2 2 (Value.bytes [1]) none _ rfl⟩

/-! ## The frame of the callee -/

/-- C16: when the input resolves to a handler, `Invoke` runs that handler in a context
whose input is the decoded arguments and whose ledger is empty, whatever the ledger of
the caller: a handler that starts by reading `GetInput` and `GetNotify` goes on with
the decoded arguments and the empty list. -/
theorem callee_frame_setup (env : Env) (fuel : Nat) (s s1 : NativeService)
    (p : ContractInvokeParam) (services : RegisterService) (r0 : Bytes) (e0 : Option Error)
    (service : Handler)
    (hdec : env.Deserialization s.input = .ok p)
    (hreg : env.Contracts p.Address = some services)
    (hrun : run env fuel services s = some (r0, e0, s1))
    (hm : s1.serviceMap p.Method = some service) :
    Invoke env (fuel + 1) s
        = (match run env fuel service (calleeFrame s1 p) with
          | none => none
          | some (result, some err, s2) =>
            some (Value.bytes result, some (Error.executeError err), s2)
          | some (result, none, s2) => some (Value.bytes result, none, mergeFrame s1 s2))
      ∧ GetInput (calleeFrame s1 p) = p.Args
      ∧ GetNotify (calleeFrame s1 p) = []
      ∧ ∀ k : Bytes → List NotifyEventInfo → Prog,
          run env fuel (.getInput (fun i => .getNotify (fun l => k i l))) (calleeFrame s1 p)
            = run env fuel (k p.Args []) (calleeFrame s1 p) :=
  ⟨Invoke_resolved env fuel s s1 p services r0 e0 service hdec hreg hrun hm, rfl, rfl,
    fun _ => rfl⟩

/-- C16 at a concrete input: the caller holds `[P0]`; `echo` of `0xA8`, called with
`[7, 8]`, sees an empty ledger and the input `[7, 8]`, and returns `[0, 7, 8]`. -/
theorem callee_frame_setup_witness :
    observe (Invoke demoEnv 1
        { demoCtx (demoEncode { Address := 168, Method := "echo", Args := [7, 8] }) with
          notifications := [P0] })
      = some (Value.bytes [0, 7, 8], none, [P0], [168, 4, 101, 99, 104, 111, 7, 8]) := by
  rw [(callee_frame_setup demoEnv 0
    { demoCtx (demoEncode { Address := 168, Method := "echo", Args := [7, 8] }) with
      notifications := [P0] } _
    { Address := 168, Method := "echo", Args := [7, 8] }
    (registerAll [("echo", echoHandler)]) [] none echoHandler
    rfl rfl (exec_registerAll _ _ _ _) rfl).1]
  rfl

/-- C17: after `AddNotify(n)` the list that `GetNotify` returns is the earlier list
followed by `n`, and every other field of the context is as before. -/
theorem addNotify_appends (s : NativeService) (n : NotifyEventInfo) :
    GetNotify (AddNotify s n) = GetNotify s ++ [n]
      ∧ (AddNotify s n).cacheDB = s.cacheDB
      ∧ (AddNotify s n).chainID = s.chainID
      ∧ (AddNotify s n).serviceMap = s.serviceMap
      ∧ (AddNotify s n).input = s.input
      ∧ (AddNotify s n).tx = s.tx
      ∧ (AddNotify s n).height = s.height
      ∧ (AddNotify s n).time = s.time
      ∧ (AddNotify s n).blockHash = s.blockHash
      ∧ (AddNotify s n).crossHashes = s.crossHashes
      ∧ (AddNotify s n).preExec = s.preExec :=
  ⟨rfl, rfl, rfl, rfl, rfl, rfl, rfl, rfl, rfl, rfl, rfl⟩

/-! ## Handler failure -/

/-- A function value that calls neither `Invoke` nor `NativeCall` leaves the input it
found. -/
theorem exec_callFree_input (env : Env) (inv : NativeService → Option InvokeResult)
    (prog : Prog) (hp : CallFree prog) :
    ∀ s r e s1, exec env inv prog s = some (r, e, s1) → s1.input = s.input := by
  induction hp with
  | ret result err =>
    intro s r e s1 h
    simp only [exec, Option.some.injEq, Prod.mk.injEq] at h
    rw [← h.2.2]
  | register m g k _ ih =>
    intro s r e s1 h
    simp only [exec] at h
    have hk := ih _ _ _ _ h
    exact hk
  | putMerkleVal data k _ ih =>
    intro s r e s1 h
    simp only [exec] at h
    have hk := ih _ _ _ _ h
    exact hk
  | checkWitness a k _ ih =>
    intro s r e s1 h
    simp only [exec] at h
    exact ih _ _ _ _ _ h
  | addNotify n k _ ih =>
    intro s r e s1 h
    simp only [exec] at h
    have hk := ih _ _ _ _ h
    exact hk
  | getCacheDB k _ ih =>
    intro s r e s1 h
    simp only [exec] at h
    exact ih _ _ _ _ _ h
  | updateCacheDB f k _ ih =>
    intro s r e s1 h
    simp only [exec] at h
    have hk := ih _ _ _ _ h
    exact hk
  | getInput k _ ih =>
    intro s r e s1 h
    simp only [exec] at h
    exact ih _ _ _ _ _ h
  | getTx k _ ih =>
    intro s r e s1 h
    simp only [exec] at h
    exact ih _ _ _ _ _ h
  | getHeight k _ ih =>
    intro s r e s1 h
    simp only [exec] at h
    exact ih _ _ _ _ _ h
  | getChainID k _ ih =>
    intro s r e s1 h
    simp only [exec] at h
    exact ih _ _ _ _ _ h
  | getNotify k _ ih =>
    intro s r e s1 h
    simp only [exec] at h
    exact ih _ _ _ _ _ h

/-- C18: when the input resolves to a handler that returns an error, `Invoke` returns
the handler's result with the execute-error, and the context is the one the handler
left: nothing is merged or restored.  If the handler calls neither `Invoke` nor
`NativeCall`, the input left is the decoded arguments; if it only emits the events `l`
before failing, the context left is the one after registration with the decoded
arguments as input and `l` as ledger. -/
theorem invoke_handler_failure_no_restore (env : Env) (fuel : Nat) (s s1 s2 : NativeService)
    (p : ContractInvokeParam) (services : RegisterService) (r0 : Bytes) (e0 : Option Error)
    (service : Handler) (result : Bytes) (err : Error)
    (hdec : env.Deserialization s.input = .ok p)
    (hreg : env.Contracts p.Address = some services)
    (hrun : run env fuel services s = some (r0, e0, s1))
    (hm : s1.serviceMap p.Method = some service)
    (hh : run env fuel service (calleeFrame s1 p) = some (result, some err, s2)) :
    Invoke env (fuel + 1) s
        = some (Value.bytes result, some (Error.executeError err), s2)
      ∧ (CallFree service → s2.input = p.Args)
      ∧ (∀ l, service = emit l (.ret result (some err)) →
          s2 = { s1 with input := p.Args, notifications := l }) := by
  refine ⟨?_, ?_, ?_⟩
  · rw [Invoke_resolved env fuel s s1 p services r0 e0 service hdec hreg hrun hm, hh]
  · intro hfree
    exact exec_callFree_input env (Invoke env fuel) service hfree _ _ _ _ hh
  · intro l hl
    subst hl
    unfold run at hh
    rw [exec_emit] at hh
    simp only [exec, calleeFrame, List.nil_append, Option.some.injEq, Prod.mk.injEq,
      true_and] at hh
    exact hh.symm

/-- C18 at a concrete input: the caller holds `[P0]`; `burn` of `0xA2`, called with
`[4]`, emits `E3` and fails.  The context left has ledger `[E3]` and input `[4]`. -/
theorem invoke_handler_failure_no_restore_witness :
    observe (Invoke demoEnv 1
        { demoCtx (demoEncode { Address := 162, Method := "burn", Args := [4] }) with
          notifications := [P0] })
      = some (Value.bytes [],
          some (Error.executeError (Error.external "insufficient balance")), [E3], [4]) := by
  rw [(invoke_handler_failure_no_restore demoEnv 0
    { demoCtx (demoEncode { Address := 162, Method := "burn", Args := [4] }) with
      notifications := [P0] } _ _
    { Address := 162, Method := "burn", Args := [4] }
    (registerAll [("mint", mintHandler), ("burn", burnHandler)]) [] none burnHandler []
    (Error.external "insufficient balance") rfl rfl (exec_registerAll _ _ _ _) rfl rfl).1]
  rfl

/-! ## Registration and the growth of the method table -/

/-- The table after `registerAll l`: the last handler that `l` registers under a name,
and the earlier entry for the names that `l` does not register. -/
theorem registerTable_lastRegistered (l : List (String × Handler))
    (t : String → Option Handler) (m : String) :
    registerTable l t m
      = match lastRegistered l m with
        | some h => some h
        | none => t m := by
  induction l generalizing t with
  | nil => rfl
  | cons a l ih =>
    obtain ⟨m1, h1⟩ := a
    simp only [registerTable, lastRegistered]
    rw [ih]
    cases lastRegistered l m with
    | some h => rfl
    | none =>
      by_cases hm : m = m1
      · simp [hm]
      · simp [hm]

/-- C19: `Register(m, g)` makes `g` the handler of `m` and leaves the entry of every
other name as it was; and when the registration function of the invoked contract
registers the requested method, with `h` the handler it installs, `Invoke` runs `h`,
whatever handler the table of the context held under that name before. -/
theorem register_overwrites_and_target_wins (env : Env) (fuel : Nat) (s : NativeService)
    (p : ContractInvokeParam) (l : List (String × Handler)) (h : Handler)
    (hdec : env.Deserialization s.input = .ok p)
    (hreg : env.Contracts p.Address = some (registerAll l))
    (hl : lastRegistered l p.Method = some h) :
    (∀ t m g, (Register t m g).serviceMap m = some g
        ∧ ∀ m1, m1 ≠ m → (Register t m g).serviceMap m1 = t.serviceMap m1)
      ∧ registerTable l s.serviceMap p.Method = some h
      ∧ Invoke env (fuel + 1) s
        = match run env fuel h
              (calleeFrame { s with serviceMap := registerTable l s.serviceMap } p) with
          | none => none
          | some (result, some err, s2) =>
            some (Value.bytes result, some (Error.executeError err), s2)
          | some (result, none, s2) =>
            some (Value.bytes result, none,
              mergeFrame { s with serviceMap := registerTable l s.serviceMap } s2) := by
  have ht : registerTable l s.serviceMap p.Method = some h := by
    rw [registerTable_lastRegistered, hl]
  refine ⟨?_, ht, ?_⟩
  · intro t m g
    constructor
    · simp [Register]
    · intro m1 hne
      simp [Register, hne]
  · exact Invoke_resolved env fuel s _ p (registerAll l) [] none h hdec hreg
      (exec_registerAll _ _ _ _) ht

/-- C19 at a concrete input: the table of the context holds `closeHandler` under
`mint`; the registration function of `0xA2` registers `mintHandler` under `mint`, and
`Invoke` runs `mintHandler` (result `[2]`, event `E1`), not `closeHandler`. -/
theorem register_overwrites_and_target_wins_witness :
    observe (Invoke demoEnv 1
        { demoCtx (demoEncode { Address := 162, Method := "mint", Args := [7] }) with
          serviceMap := fun m => if m = "mint" then some closeHandler else none })
      = some (Value.bytes [2], none, [E1], [162, 4, 109, 105, 110, 116, 7]) := by
  rw [(register_overwrites_and_target_wins demoEnv 0
    { demoCtx (demoEncode { Address := 162, Method := "mint", Args := [7] }) with
      serviceMap := fun m => if m = "mint" then some closeHandler else none }
    { Address := 162, Method := "mint", Args := [7] }
    [("mint", mintHandler), ("burn", burnHandler)] mintHandler rfl rfl rfl).2.2]
  rfl

/-- C20: the table of a new context is empty; `Register` keeps every name that was
present, `PutMerkleVal` and `AddNotify` leave the table alone; and whatever `Invoke` or
`NativeCall` returns, every name present in the table before the call is present
after it. -/
theorem method_table_only_grows (env : Env) :
    (∀ cacheDB tx time height blockHash chainID input preExec crossHashes m,
        (NewNativeService cacheDB tx time height blockHash chainID input preExec
          crossHashes).serviceMap m = none)
      ∧ (∀ s m h m1, (s.serviceMap m1).isSome = true →
          ((Register s m h).serviceMap m1).isSome = true)
      ∧ (∀ s data, (PutMerkleVal env s data).serviceMap = s.serviceMap)
      ∧ (∀ s n, (AddNotify s n).serviceMap = s.serviceMap)
      ∧ (∀ fuel s v e s1 m, Invoke env fuel s = some (v, e, s1) →
          (s.serviceMap m).isSome = true → (s1.serviceMap m).isSome = true)
      ∧ (∀ fuel s a m0 args v e s1 m, NativeCall env fuel s a m0 args = some (v, e, s1) →
          (s.serviceMap m).isSome = true → (s1.serviceMap m).isSome = true) := by
  refine ⟨fun _ _ _ _ _ _ _ _ _ _ => rfl, ?_, fun _ _ => rfl, fun _ _ => rfl, ?_, ?_⟩
  · intro s m h m1 hm1
    exact (methods_stable env).register s m h m1 hm1
  · intro fuel s v e s1 m hret hm
    exact Invoke_stable env _ (methods_stable env) fuel s v e s1 hret m hm
  · intro fuel s a m0 args v e s1 m hret hm
    exact Invoke_stable env _ (methods_stable env) fuel (nativeCallInput env s a m0 args)
      v e s1 hret m hm

/-- C20 at a concrete input: the table holds `mint` and `burn`; after `NativeCall` into
`close` of `0xA4` the name `mint` is still in the table. -/
theorem method_table_only_grows_witness :
    ∃ s1, NativeCall demoEnv 1
          { demoCtx [] with
            serviceMap := registerTable [("mint", mintHandler), ("burn", burnHandler)]
              (fun _ => none) }
          164 "close" []
        = some (Value.bytes [4], none, s1)
      ∧ (s1.serviceMap "mint").isSome = true ∧ (s1.serviceMap "close").isSome = true :=
  ⟨_, rfl,
    (method_table_only_grows demoEnv).2.2.2.2.2 1
      { demoCtx [] with
        serviceMap := registerTable [("mint", mintHandler), ("burn", burnHandler)]
          (fun _ => none) }
      164 "close" [] (Value.bytes [4]) none _ "mint" rfl rfl, rfl⟩

end Native
